import Mathlib

/-!
Verification development for the offline Jira synchronization CLI.

The definitions below are a shallow embedding of the JavaScript sources:

* `src/lib/id.mjs`        — content addressing (SHA-1 ids, id resolution)
* `src/lib/storage.mjs`   — the local record store (`saveIssue`, `updateOffline`,
                            `queueEdit`, `clearPending`, `computeChangesSinceRead`)
* `src/commands/pull.mjs` — the sync engine (incremental JQL, cursor advancement,
                            per-item processing)
* `src/commands/apply.mjs`— the reconciler (`applyTicketChanges`)
* `src/commands/edit.mjs` — the change queue (`handleLabelEdit`)

JavaScript objects are embedded as Lean structures with `Option` fields
(`none` models both `undefined` and `null`); JavaScript dates that the code
compares are ISO-8601 strings, whose chronological order coincides with
the lexicographic string order used here.  Filesystem effects are embedded
as explicit operation traces, and the YAML serializer is passed as a
function parameter (it is an external library in the source).
-/

set_option linter.unusedVariables false
set_option maxRecDepth 100000

namespace Jira

/-- JavaScript truthiness of an optional string value: `undefined`/`null`
and the empty string are falsy, every other string is truthy. -/
def optStrTruthy : Option String → Bool
  | none => false
  | some s => s != ""

/-! ## Data model (frontmatter objects, `src/lib/storage.mjs`) -/

/-- A Jira user reference as stored (`displayName` / `emailAddress`). -/
structure PersonObj where
  displayName : Option String := none
  emailAddress : Option String := none
deriving Repr, DecidableEq

/-- A named Jira entity (status, priority, issuetype): only `name` is read. -/
structure NameObj where
  name : Option String := none
deriving Repr, DecidableEq

/-- A Jira project reference (`name`, `key`). -/
structure ProjectObj where
  name : Option String := none
  key : Option String := none
deriving Repr, DecidableEq

/-- The `fields` object of a remote issue payload. -/
structure IssueFields where
  summary : Option String := none
  status : Option NameObj := none
  priority : Option NameObj := none
  issuetype : Option NameObj := none
  assignee : Option PersonObj := none
  reporter : Option PersonObj := none
  project : Option ProjectObj := none
  created : Option String := none
  updated : Option String := none
  labels : Option (List String) := none
  components : Option (List String) := none
  description : Option String := none
deriving Repr, DecidableEq

/-- A remote issue payload (`issue.key`, `issue.id`, `issue.fields`). -/
structure Issue where
  key : String
  id : Option String := none
  fields : IssueFields := {}
deriving Repr, DecidableEq

/-- A raw comment object returned by the remote comment API. -/
structure RemoteComment where
  id : Option String := none
  author : Option PersonObj := none
  body : Option String := none
  created : Option String := none
  updated : Option String := none
deriving Repr, DecidableEq

/-- A comment as persisted under `_comments` by `saveIssue`. -/
structure StoredComment where
  id : Option String := none
  author : Option PersonObj := none
  body : Option String := none
  created : Option String := none
  updated : Option String := none
deriving Repr, DecidableEq

/-- One item of a changelog history entry (`field`, `fromString`, `toString`). -/
structure HistoryItem where
  field : Option String := none
  fromString : Option String := none
  toString : Option String := none
deriving Repr, DecidableEq

/-- One changelog history entry: creation timestamp plus changed items. -/
structure History where
  created : String
  items : List HistoryItem := []
deriving Repr, DecidableEq

/-- The changelog object fetched for an issue (`changelog.histories`). -/
structure Changelog where
  histories : Option (List History) := none
deriving Repr, DecidableEq

/-- A queued offline comment (`offline.pending.comments[i]`). -/
structure QueuedComment where
  text : String
  queued_at : String := ""
deriving Repr, DecidableEq

/-- A queued offline link operation (`offline.pending.links[i]`). -/
structure QueuedLink where
  action : String
  inwardKey : String := ""
  outwardKey : String := ""
  type : String := ""
  queued_at : String := ""
deriving Repr, DecidableEq

/-- A value stored under one key of the `offline.pending` object. -/
inductive PendVal where
  | str (v : String)
  | strList (v : List String)
  | comments (v : List QueuedComment)
  | links (v : List QueuedLink)
deriving Repr, DecidableEq

/-- The `offline.pending` object: a key-ordered JavaScript object, embedded
as an association list preserving insertion order. -/
abbrev Pending : Type := List (String × PendVal)

/-- The `previous` snapshot taken by `markAsRead`. -/
structure PreviousSnap where
  status : Option NameObj := none
  assignee : Option PersonObj := none
  priority : Option NameObj := none
  summary : Option String := none
  labels : List String := []
  description : Option String := none
  commentCount : Nat := 0
deriving Repr, DecidableEq

/-- The change summary computed by `computeChangesSinceRead`. -/
structure Changes where
  title : Bool := false
  description : Bool := false
  namedFields : List String := []
  otherFields : Nat := 0
  comments : Nat := 0
  labelsAdded : List String := []
  labelsRemoved : List String := []
  componentsAdded : List String := []
  componentsRemoved : List String := []
deriving Repr, DecidableEq

/-- The `offline` section of a stored record (the LocalState). -/
structure Offline where
  last_sync : Option String := none
  last_read : Option String := none
  previous : Option PreviousSnap := none
  pending : Option Pending := none
  deleted : Option String := none
  tags : Option (List String) := none
  changes_since_read : Option Changes := none
deriving Repr, DecidableEq

/-- A stored record's frontmatter.  The fields `stored_id`, `stored_at` and
`comments` embed the source keys `_stored_id`, `_stored_at` and `_comments`. -/
structure StoredTicket where
  key : String
  id : Option String := none
  host : String := ""
  summary : Option String := none
  status : Option NameObj := none
  priority : Option NameObj := none
  issuetype : Option NameObj := none
  assignee : Option PersonObj := none
  reporter : Option PersonObj := none
  project : Option ProjectObj := none
  created : Option String := none
  updated : Option String := none
  labels : List String := []
  components : List String := []
  description : Option String := none
  webLink : String := ""
  stored_id : Option String := none
  stored_at : Option String := none
  comments : Option (List StoredComment) := none
  offline : Offline := {}
deriving Repr, DecidableEq

/-! ## `issueToStorage` (`src/lib/storage.mjs` lines 30-51) -/

/-- Convert a remote issue payload to the storage frontmatter shape. -/
def issueToStorage (issue : Issue) (hostUrl : String) : StoredTicket :=
  { key := issue.key
    id := issue.id
    host := hostUrl
    summary := issue.fields.summary
    status := issue.fields.status
    priority := issue.fields.priority
    issuetype := issue.fields.issuetype
    assignee := issue.fields.assignee
    reporter := issue.fields.reporter
    project := issue.fields.project
    created := issue.fields.created
    updated := issue.fields.updated
    labels := issue.fields.labels.getD []
    components := issue.fields.components.getD []
    description := issue.fields.description
    webLink := hostUrl ++ "/browse/" ++ issue.key }

/-! ## `computeChangesSinceRead` (`src/lib/storage.mjs` lines 203-330) -/

/-- The default field-name map used to classify changelog items. -/
def fieldNameMap (f : String) : Option String :=
  if f = "assignee" then some "assignee"
  else if f = "status" then some "status"
  else if f = "priority" then some "priority"
  else if f = "timeoriginalestimate" then some "estimate"
  else if f = "original estimate" then some "estimate"
  else if f = "timespent" then some "logged"
  else if f = "time spent" then some "logged"
  else if f = "timeestimate" then some "remaining"
  else if f = "remaining estimate" then some "remaining"
  else if f = "target start" then some "target start"
  else if f = "target end" then some "target end"
  else if f = "duedate" then some "due date"
  else if f = "due date" then some "due date"
  else none

/-- `item.fromString ? item.fromString.split(' ') : []` -/
def splitLabels : Option String → List String
  | none => []
  | some s => if s = "" then [] else s.splitOn " "

/-- Push an element unless already present (`includes` + `push`). -/
def pushNew (l : List String) (x : String) : List String :=
  if x ∈ l then l else l ++ [x]

/-- Process one changelog item, mirroring the `for (const item of ...)` body. -/
def applyChangeItem (ch : Changes) (item : HistoryItem) : Changes :=
  let fieldLc : Option String := item.field.map String.toLower
  if fieldLc = some "summary" then { ch with title := true }
  else if fieldLc = some "description" then { ch with description := true }
  else if fieldLc = some "comment" then ch
  else if fieldLc = some "labels" then
    let fromLabels := splitLabels item.fromString
    let toLabels := splitLabels item.toString
    let added := toLabels.foldl
      (fun acc label =>
        if label ≠ "" ∧ label ∉ fromLabels then pushNew acc label else acc)
      ch.labelsAdded
    let removed := fromLabels.foldl
      (fun acc label =>
        if label ≠ "" ∧ label ∉ toLabels then pushNew acc label else acc)
      ch.labelsRemoved
    { ch with labelsAdded := added, labelsRemoved := removed }
  else if fieldLc = some "component" then
    let fromComp := item.fromString.getD ""
    let toComp := item.toString.getD ""
    let ch1 := if toComp ≠ "" ∧ toComp ≠ fromComp then
        { ch with componentsAdded := pushNew ch.componentsAdded toComp } else ch
    if fromComp ≠ "" ∧ fromComp ≠ toComp then
      { ch1 with componentsRemoved := pushNew ch1.componentsRemoved fromComp } else ch1
  else
    match fieldLc.bind fieldNameMap with
    | some displayName =>
        if displayName ∈ ch.namedFields then ch
        else { ch with namedFields := ch.namedFields ++ [displayName] }
    | none => { ch with otherFields := ch.otherFields + 1 }

/-- Process one history entry: entries dated at or before `lastRead` are skipped. -/
def applyHistory (lastRead : String) (ch : Changes) (h : History) : Changes :=
  if h.created ≤ lastRead then ch
  else h.items.foldl applyChangeItem ch

/-- Does the summary record any change at all? -/
def hasChanges (c : Changes) : Bool :=
  c.title || c.description || !c.namedFields.isEmpty || c.otherFields > 0 ||
  c.comments > 0 || !c.labelsAdded.isEmpty || !c.labelsRemoved.isEmpty ||
  !c.componentsAdded.isEmpty || !c.componentsRemoved.isEmpty

/-- Summarize remote changes since `lastRead` from changelog histories. -/
def computeChangesSinceRead (histories : List History) (lastRead : Option String)
    (prevCommentCount newCommentCount : Nat) : Option Changes :=
  let c0 : Changes :=
    { comments := if newCommentCount > prevCommentCount
        then newCommentCount - prevCommentCount else 0 }
  if !optStrTruthy lastRead then none
  else
    let lr := lastRead.getD ""
    let c := histories.foldl (applyHistory lr) c0
    if hasChanges c then some c else none

/-! ## Addressing (`src/lib/id.mjs`)

`generateId(host, key)` returns `createHash('sha1').update(host + ":" + key).digest('hex')`.
SHA-1 is embedded below, operating on the UTF-8 bytes of the input string
(Node's default encoding for string updates), with 32-bit words represented
as `Nat` reduced modulo `2 ^ 32`. -/

/-- Truncate to a 32-bit word. -/
def w32 (n : Nat) : Nat := n % 4294967296

/-- Rotate a 32-bit word left by `s` (for `n < 2 ^ 32`). -/
def rotl32 (n s : Nat) : Nat := w32 (n * 2 ^ s) + n / 2 ^ (32 - s)

/-- Bitwise complement of a 32-bit word (for `n < 2 ^ 32`). -/
def not32 (n : Nat) : Nat := 4294967295 - n

/-- UTF-8 encoding of one character as byte values. -/
def utf8Char (c : Char) : List Nat :=
  let n := c.toNat
  if n < 128 then [n]
  else if n < 2048 then [192 + n / 64, 128 + n % 64]
  else if n < 65536 then [224 + n / 4096, 128 + n / 64 % 64, 128 + n % 64]
  else [240 + n / 262144, 128 + n / 4096 % 64, 128 + n / 64 % 64, 128 + n % 64]

/-- UTF-8 bytes of a string. -/
def utf8Bytes (s : String) : List Nat := (s.toList.map utf8Char).flatten

/-- Big-endian 8-byte rendering of the message bit length. -/
def lenBytes (bits : Nat) : List Nat :=
  [bits / 2 ^ 56 % 256, bits / 2 ^ 48 % 256, bits / 2 ^ 40 % 256, bits / 2 ^ 32 % 256,
   bits / 2 ^ 24 % 256, bits / 2 ^ 16 % 256, bits / 2 ^ 8 % 256, bits % 256]

/-- SHA-1 padding: append `0x80`, zero bytes to 56 mod 64, then the bit length. -/
def sha1Pad (msg : List Nat) : List Nat :=
  let padZeros := (119 - msg.length % 64) % 64
  msg ++ [128] ++ List.replicate padZeros 0 ++ lenBytes (8 * msg.length)

/-- Pack a 64-byte block into 16 big-endian 32-bit words. -/
def packWords : List Nat → List Nat
  | b0 :: b1 :: b2 :: b3 :: rest =>
      (b0 * 16777216 + b1 * 65536 + b2 * 256 + b3) :: packWords rest
  | _ => []

/-- Extend 16 words to 80 by the SHA-1 word recurrence, `n` more words to add. -/
def extendWords (ws : List Nat) : Nat → List Nat
  | 0 => ws
  | n + 1 =>
      let k := ws.length
      let w := rotl32 ((ws.getD (k - 3) 0 ^^^ ws.getD (k - 8) 0) ^^^
        (ws.getD (k - 14) 0 ^^^ ws.getD (k - 16) 0)) 1
      extendWords (ws ++ [w]) n

/-- The SHA-1 round function for round `i`. -/
def sha1F (i b c d : Nat) : Nat :=
  if i < 20 then (b &&& c) ||| (not32 b &&& d)
  else if i < 40 then (b ^^^ c) ^^^ d
  else if i < 60 then (b &&& c) ||| (b &&& d) ||| (c &&& d)
  else (b ^^^ c) ^^^ d

/-- The SHA-1 round constant for round `i`. -/
def sha1K (i : Nat) : Nat :=
  if i < 20 then 1518500249
  else if i < 40 then 1859775393
  else if i < 60 then 2400959708
  else 3395469782

/-- One SHA-1 round applied to the five-word working state. -/
def sha1Round (st : Nat × Nat × Nat × Nat × Nat) (iw : Nat × Nat) :
    Nat × Nat × Nat × Nat × Nat :=
  let (a, b, c, d, e) := st
  let (i, w) := iw
  let temp := w32 (rotl32 a 5 + sha1F i b c d + e + sha1K i + w)
  (temp, a, rotl32 b 30, c, d)

/-- Process one 64-byte block, updating the five hash words. -/
def sha1Block (h : Nat × Nat × Nat × Nat × Nat) (block : List Nat) :
    Nat × Nat × Nat × Nat × Nat :=
  let ws := extendWords (packWords block) 64
  let (h0, h1, h2, h3, h4) := h
  let (a, b, c, d, e) :=
    ((List.range 80).zip ws).foldl sha1Round (h0, h1, h2, h3, h4)
  (w32 (h0 + a), w32 (h1 + b), w32 (h2 + c), w32 (h3 + d), w32 (h4 + e))

/-- Split a byte list into 64-byte blocks; the fuel bounds the number of
blocks (each step consumes at least one byte, so the list length suffices). -/
def blocks64Go : Nat → List Nat → List (List Nat)
  | 0, _ => []
  | _, [] => []
  | fuel + 1, b :: rest => ((b :: rest).take 64) :: blocks64Go fuel ((b :: rest).drop 64)

/-- Split a byte list into 64-byte blocks. -/
def blocks64 (l : List Nat) : List (List Nat) := blocks64Go l.length l

/-- The five 32-bit words of the SHA-1 digest of a byte sequence. -/
def sha1Words (msg : List Nat) : Nat × Nat × Nat × Nat × Nat :=
  (blocks64 (sha1Pad msg)).foldl sha1Block
    (1732584193, 4023233417, 2562383102, 271733878, 3285377520)

/-- The sixteen lowercase hexadecimal digit characters, in value order:
digits `0`-`9` then letters `a`-`f`. -/
def hexDigits : List Char :=
  (List.range 16).map fun d =>
    if d < 10 then Char.ofNat (48 + d) else Char.ofNat (87 + d)

/-- The hex character of a nibble. -/
def hexChar (n : Nat) : Char := hexDigits.getD (n % 16) '0'

/-- Eight-character hex rendering of a 32-bit word. -/
def toHex8 (n : Nat) : List Char :=
  [hexChar (n / 2 ^ 28), hexChar (n / 2 ^ 24), hexChar (n / 2 ^ 20),
   hexChar (n / 2 ^ 16), hexChar (n / 2 ^ 12), hexChar (n / 2 ^ 8),
   hexChar (n / 2 ^ 4), hexChar n]

/-- Hex-encoded SHA-1 digest of a byte sequence. -/
def sha1Hex (msg : List Nat) : String :=
  let (h0, h1, h2, h3, h4) := sha1Words msg
  String.mk (toHex8 h0 ++ toHex8 h1 ++ toHex8 h2 ++ toHex8 h3 ++ toHex8 h4)

/-- `generateId` (`src/lib/id.mjs` lines 15-18): SHA-1 of `host + ":" + key`. -/
def generateId (host key : String) : String :=
  sha1Hex (utf8Bytes (host ++ ":" ++ key))

/-- `shortId` (`src/lib/id.mjs`): first six characters of the full id. -/
def shortId (fullId : String) : String := String.mk (fullId.toList.take 6)

/-! ## `saveIssue` (`src/lib/storage.mjs` lines 128-197)

`saveIssue` is split into the pure record construction (`saveIssueRecord`,
everything between reading the existing file and serialization) and the
filesystem write trace (`saveIssueFsOps` below).  The existing file's parsed
frontmatter, and the current wall-clock time `now`, are passed explicitly. -/

/-- `existing?._comments?.length || 0`: the stored-comment baseline. -/
def commentBaseline (t : Option StoredTicket) : Nat :=
  match t with
  | none => 0
  | some tk => match tk.comments with | none => 0 | some cs => cs.length

/-- Map a raw API comment to the persisted `_comments` entry shape. -/
def mapRemoteComment (c : RemoteComment) : StoredComment :=
  { id := c.id
    author := c.author.map fun a =>
      { displayName := a.displayName, emailAddress := a.emailAddress }
    body := c.body
    created := c.created
    updated := c.updated }

/-- Options passed to `saveIssue` (`options.comments`, `options.changelog`). -/
structure SaveOptions where
  comments : Option (List RemoteComment) := none
  changelog : Option Changelog := none
deriving Repr, DecidableEq

/-- The record written by `saveIssue`: fresh snapshot from the incoming
payload, `_stored_id`/`_stored_at` set, `_comments` attached only when a
non-empty comments option is given, and the `offline` section carried over
from the existing record with `last_sync` set to now, `changes_since_read`
recomputed when a changelog is given, and `previous` nulled when the record
has never been read. -/
def saveIssueRecord (existing : Option StoredTicket) (issue : Issue)
    (hostUrl : String) (opts : SaveOptions) (now : String) : StoredTicket :=
  let existingOffline : Offline :=
    match existing with | some t => t.offline | none => {}
  let existingCommentCount := commentBaseline existing
  let id := generateId hostUrl issue.key
  let base := issueToStorage issue hostUrl
  let withStored := { base with stored_id := some id, stored_at := some now }
  let withComments :=
    match opts.comments with
    | some cs =>
        if cs.length > 0 then
          { withStored with comments := some (cs.map mapRemoteComment) }
        else withStored
    | none => withStored
  let off1 : Offline := { existingOffline with last_sync := some now }
  let newCommentCount :=
    match withComments.comments with | some cs => cs.length | none => 0
  let off2 : Offline :=
    match opts.changelog with
    | some cl =>
        match cl.histories with
        | some hs =>
            { off1 with changes_since_read :=
                (computeChangesSinceRead hs existingOffline.last_read
                  existingCommentCount newCommentCount) }
        | none => off1
    | none => off1
  let off3 : Offline :=
    if optStrTruthy existingOffline.last_read then off2
    else { off2 with previous := none }
  { withComments with offline := off3 }

/-! ## Markdown body generation (`src/lib/storage.mjs` lines 62-102)

`formatCommentDate` renders via the JavaScript locale machinery, which is
external; it is passed in as a parameter. -/

/-- `generateMarkdownBody`: render the ticket body from the stored data. -/
def generateMarkdownBody (fmtDate : Option String → String)
    (data : StoredTicket) : String :=
  let header : List String :=
    ["# " ++ data.key ++ ": " ++ data.summary.getD "No summary",
     "",
     "**Status:** " ++ ((data.status.bind NameObj.name).getD "Unknown") ++ "  ",
     "**Priority:** " ++ ((data.priority.bind NameObj.name).getD "None") ++ "  ",
     "**Assignee:** " ++ ((data.assignee.bind PersonObj.displayName).getD "Unassigned") ++ "  ",
     "**Reporter:** " ++ ((data.reporter.bind PersonObj.displayName).getD "Unknown") ++ "  ",
     "**Project:** " ++ ((data.project.bind ProjectObj.name).getD "") ++ " (" ++
       ((data.project.bind ProjectObj.key).getD "") ++ ")  ",
     "**Created:** " ++ ((data.created.map fun s => (s.splitOn "T").headD "").getD "") ++ "  ",
     "**Updated:** " ++ ((data.updated.map fun s => (s.splitOn "T").headD "").getD "") ++ "  ",
     "**Link:** [" ++ data.key ++ "](" ++ data.webLink ++ ")",
     "",
     "---",
     "",
     "## Description",
     "",
     data.description.getD "_No description provided._"]
  let commentLines : List String :=
    match data.comments with
    | some cs =>
        if cs.length > 0 then
          ["", "---", "", "## Comments", ""] ++
          (cs.map fun comment =>
            ["### " ++ ((comment.author.bind PersonObj.displayName).getD "Unknown") ++
               " (" ++ fmtDate comment.created ++ ")",
             "",
             comment.body.getD "_No content_",
             ""]).flatten
        else []
    | none => []
  String.intercalate "\n" (header ++ commentLines)

/-! ## Filesystem write traces (`saveIssue` / `updateOffline`)

To settle how records are persisted, the write-side filesystem operations
of `saveIssue` (line 194) and `updateOffline` (line 378) are embedded as
explicit traces.  The YAML dump of the frontmatter is an external library
call and is passed in as `yamlDump`. -/

/-- A filesystem write-class operation. -/
inductive FsOp where
  | write (path content : String)
  | rename (src dst : String)
  | unlink (path : String)
deriving Repr, DecidableEq

/-- `join(storageDir, id + ".md")`: the final path of a stored record. -/
def recordPath (storageDir id : String) : String :=
  storageDir ++ "/" ++ id ++ ".md"

/-- The full file content written by `saveIssue`. -/
def saveIssueContent (yamlDump : StoredTicket → String)
    (fmtDate : Option String → String) (data : StoredTicket) : String :=
  "---\n" ++ yamlDump data ++ "---\n\n" ++ generateMarkdownBody fmtDate data ++ "\n"

/-- The write-class filesystem operations performed by one `saveIssue` call:
a single direct `writeFileSync` of the full content to the final path. -/
def saveIssueFsOps (yamlDump : StoredTicket → String)
    (fmtDate : Option String → String) (storageDir : String)
    (existing : Option StoredTicket) (issue : Issue) (hostUrl : String)
    (opts : SaveOptions) (now : String) : List FsOp :=
  let id := generateId hostUrl issue.key
  let data := saveIssueRecord existing issue hostUrl opts now
  [FsOp.write (recordPath storageDir id) (saveIssueContent yamlDump fmtDate data)]

/-! ## `updateOffline` and the change queue (`src/lib/storage.mjs` lines 356-488) -/

/-- A patch merged into the `offline` section by `updateOffline`; a field is
`none` when the patch does not mention it, `some v` when it sets it to `v`
(setting a key to JavaScript `null` is `some none` collapsed to setting the
`Option` field to `none`, so explicit nulls are passed as `some none`). -/
structure OfflinePatch where
  last_sync : Option (Option String) := none
  last_read : Option (Option String) := none
  previous : Option (Option PreviousSnap) := none
  pending : Option (Option Pending) := none
  deleted : Option (Option String) := none
  tags : Option (Option (List String)) := none
  changes_since_read : Option (Option Changes) := none
deriving Repr, DecidableEq

/-- Shallow merge of a patch into an `offline` object (`{...offline, ...updates}`). -/
def mergeOffline (o : Offline) (p : OfflinePatch) : Offline :=
  { last_sync := p.last_sync.getD o.last_sync
    last_read := p.last_read.getD o.last_read
    previous := p.previous.getD o.previous
    pending := p.pending.getD o.pending
    deleted := p.deleted.getD o.deleted
    tags := p.tags.getD o.tags
    changes_since_read := p.changes_since_read.getD o.changes_since_read }

/-- `updateOffline`: merge the patch into the ticket's `offline` section. -/
def updateOffline (ticket : StoredTicket) (p : OfflinePatch) : StoredTicket :=
  { ticket with offline := mergeOffline ticket.offline p }

/-- The write-class filesystem operations performed by one `updateOffline`
call: a single direct `writeFileSync` of frontmatter plus preserved body to
the record's existing path. -/
def updateOfflineFsOps (yamlDump : StoredTicket → String) (filePath : String)
    (ticket : StoredTicket) (body : String) (p : OfflinePatch) : List FsOp :=
  [FsOp.write filePath ("---\n" ++ yamlDump (updateOffline ticket p) ++ "---\n\n" ++ body)]

/-- Look up a key of a pending object. -/
def pendLookup (p : Pending) (field : String) : Option PendVal :=
  match p with
  | [] => none
  | (k, v) :: rest => if k = field then some v else pendLookup rest field

/-- `pending[field] = value`: replace in place, or append a new key. -/
def pendSet (p : Pending) (field : String) (value : PendVal) : Pending :=
  match p with
  | [] => [(field, value)]
  | (k, v) :: rest =>
      if k = field then (k, value) :: rest else (k, v) :: pendSet rest field value

/-- `queueEdit` (`storage.mjs` lines 427-437): set one pending field. -/
def queueEdit (ticket : StoredTicket) (field : String) (value : PendVal) : StoredTicket :=
  let pending := ticket.offline.pending.getD []
  updateOffline ticket { pending := some (some (pendSet pending field value)) }

/-- `clearPending` (`storage.mjs` lines 464-466): `pending` set to null. -/
def clearPending (ticket : StoredTicket) : StoredTicket :=
  updateOffline ticket { pending := some none }

/-! ## `handleLabelEdit` (`src/commands/edit.mjs` lines 82-104) -/

/-- `indexOf` + `splice(idx, 1)`: remove the first occurrence, if any. -/
def removeFirst : List String → String → List String
  | [], _ => []
  | a :: as, x => if a = x then as else a :: removeFirst as x

/-- The base label list used by a label edit: `pending.labels` when present
(its only writer always stores a list there), else a copy of `ticket.labels`. -/
def labelEditBase (ticket : StoredTicket) : List String :=
  match pendLookup (ticket.offline.pending.getD []) "labels" with
  | some (PendVal.strList v) => v
  | _ => ticket.labels

/-- The new label list produced by one label edit: `+item` adds when
absent, `-item` removes the first occurrence, anything else replaces
wholesale with the comma-split list.  `value.startsWith('+')` and
`value.substring(1)` are embedded as a match on the value's first character
and the string of the remaining characters. -/
def labelEditValue (currentLabels : List String) (value : String) : List String :=
  match value.toList with
  | '+' :: rest =>
      let label := String.mk rest
      if label ∈ currentLabels then currentLabels else currentLabels ++ [label]
  | '-' :: rest =>
      let label := String.mk rest
      removeFirst currentLabels label
  | _ => (value.splitOn ",").map String.trim

/-- `handleLabelEdit`: queue the edited label list against the base list. -/
def handleLabelEdit (ticket : StoredTicket) (value : String) : StoredTicket :=
  queueEdit ticket "labels" (PendVal.strList (labelEditValue (labelEditBase ticket) value))

/-! ## Sync cursor advancement (`src/commands/pull.mjs` lines 313-350) -/

/-- The running-maximum update inside the per-issue loop:
`if (issueUpdated && (!maxUpdated || issueUpdated > maxUpdated)) maxUpdated = issueUpdated`. -/
def trackMaxUpdated (maxUpdated : Option String) (issue : Issue) : Option String :=
  match issue.fields.updated with
  | none => maxUpdated
  | some u =>
      if u = "" then maxUpdated
      else
        match maxUpdated with
        | none => some u
        | some m => if m < u then some u else maxUpdated

/-- `const syncTimestamp = maxUpdated || pullStartTime`: the cursor value
stored for a pattern after its issues are processed. -/
def patternSyncTimestamp (issues : List Issue) (pullStartTime : String) : String :=
  (issues.foldl trackMaxUpdated none).getD pullStartTime

/-- `syncState.hosts[hostName].patterns[pKey] = syncTimestamp`: the stored
cursor for a pattern is overwritten unconditionally; the previous cursor
does not enter the computation. -/
def advanceCursor (previousCursor : Option String) (issues : List Issue)
    (pullStartTime : String) : String :=
  patternSyncTimestamp issues pullStartTime

/-! ## Incremental JQL construction (`src/commands/pull.mjs` lines 285-302)

The regular expression match against `/\s+(ORDER\s+BY\s+[\s\S]+)$/i` is
embedded as a leftmost scan over the character list of the base JQL. -/

/-- The ASCII whitespace characters of the regular expression class. -/
def wsChars : List Char := [' ', '\t', '\n', '\r', '\x0b', '\x0c']

/-- A whitespace character, as matched by the regular expression class. -/
def isWsChar (c : Char) : Bool := wsChars.contains c

/-- Case-insensitive character comparison against a lowercase letter. -/
def ciEq (c t : Char) : Bool := c.toLower == t

/-- After `BY`: at least one whitespace character, then at least one more
character, everything further absorbed by `[\s\S]+$`. -/
def matchBYTail : List Char → Bool
  | b :: y :: w :: _ :: _ => ciEq b 'b' && ciEq y 'y' && isWsChar w
  | _ => false

/-- At least one whitespace character, then the `BY` tail. -/
def skipWsThenBY : List Char → Bool
  | [] => false
  | c :: cs => isWsChar c && (matchBYTail cs || skipWsThenBY cs)

/-- Does the capture group `ORDER\s+BY\s+[\s\S]+$` match starting here? -/
def matchOrderAt : List Char → Bool
  | o :: r :: d :: e :: r2 :: rest =>
      ciEq o 'o' && ciEq r 'r' && ciEq d 'd' && ciEq e 'e' && ciEq r2 'r' &&
        skipWsThenBY rest
  | _ => false

/-- Starting at a whitespace run, find the capture start right after it. -/
def wsRunToOrder : List Char → Option (List Char)
  | [] => none
  | c :: cs =>
      if isWsChar c then
        if matchOrderAt cs then some cs else wsRunToOrder cs
      else none

/-- Leftmost match of `\s+(ORDER\s+BY\s+[\s\S]+)$`: returns the characters
before the match and the captured group. -/
def findOrderBy : List Char → Option (List Char × List Char)
  | [] => none
  | c :: cs =>
      match wsRunToOrder (c :: cs) with
      | some capture => some ([], capture)
      | none =>
          match findOrderBy cs with
          | some (before, capture) => some (c :: before, capture)
          | none => none

/-- JavaScript `String.prototype.trim` on a character list. -/
def trimChars (l : List Char) : List Char :=
  ((l.dropWhile isWsChar).reverse.dropWhile isWsChar).reverse

/-- The incremental JQL built when a prior cursor exists and no full refresh
is forced: wrap the order-free base, inject the updated-since predicate, and
re-append any ordering clause last. -/
def buildIncrementalJql (baseJql : List Char) (formattedDate : List Char) : List Char :=
  let m := findOrderBy baseJql
  let orderByClause := match m with | some (_, cap) => trimChars cap | none => []
  let jqlWithoutOrder :=
    match m with | some (before, _) => trimChars before | none => trimChars baseJql
  let jql := ('(' :: jqlWithoutOrder) ++ (") AND updated >= ".toList) ++
    ('"' :: formattedDate) ++ ['"']
  if orderByClause ≠ [] then jql ++ (' ' :: orderByClause) else jql

/-- The JQL used for a pattern: the incremental form only when no full
refresh was requested and a prior cursor exists (`!forceFull && lastSync`);
the formatted cursor date is derived externally from the cursor value. -/
def patternJql (baseJql : List Char) (forceFull : Bool) (lastSync : Option String)
    (formattedDate : List Char) : List Char :=
  if !forceFull && optStrTruthy lastSync then
    buildIncrementalJql baseJql formattedDate
  else baseJql

/-! ## Per-item and per-pattern failure behavior (`pull.mjs` lines 308-353)

Network effects are modelled by per-item and per-pattern success flags.
Inside the per-issue loop, the comments fetch and the changelog fetch are
each wrapped in their own try/catch (a failure only loses the enrichment);
the `saveIssue` call is not — an exception there propagates to the single
try/catch wrapping the whole pattern, which catches it and lets the loop
over patterns continue. -/

/-- Failure injection for one fetched item. -/
structure ItemFx where
  key : String
  commentsOk : Bool := true
  changelogOk : Bool := true
  saveOk : Bool := true
deriving Repr, DecidableEq

/-- Failure injection for one sync pattern. -/
structure PatternFx where
  searchOk : Bool := true
  items : List ItemFx := []
deriving Repr, DecidableEq

/-- A record of one completed save: the item's key and whether its comments
and changelog enrichments were available. -/
structure SavedItem where
  key : String
  withComments : Bool
  withChangelog : Bool
deriving Repr, DecidableEq

/-- The per-issue loop of `pullFromHost`: enrichment failures are tolerated
per item; a save failure throws, ending the pattern's loop. -/
def processItems : List ItemFx → List SavedItem
  | [] => []
  | fx :: rest =>
      if fx.saveOk then
        { key := fx.key, withComments := fx.commentsOk,
          withChangelog := fx.changelogOk } :: processItems rest
      else []

/-- One pattern under its try/catch: nothing is saved when the search fails
or when a save failure aborts the loop; the error does not escape. -/
def runPattern (p : PatternFx) : List SavedItem :=
  if p.searchOk then processItems p.items else []

/-- The loop over a host's sync patterns: every pattern runs regardless of
earlier patterns' outcomes. -/
def pullFromHostSaves (patterns : List PatternFx) : List SavedItem :=
  (patterns.map runPattern).flatten

/-! ## `applyTicketChanges` (`src/commands/apply.mjs` lines 84-174)

The reconciler's per-record apply is embedded as the sequence of remote and
local operations it performs on its success path (an exception anywhere
truncates the sequence at that point and is caught by the per-record loop
in `runApply`).  The host-specific field-alias mapping is external and
passed as `mapField`. -/

/-- One observable operation of the reconciler. -/
inductive ApplyEv where
  | deleteRemote (key : String)
  | unlinkLocal (path : String)
  | fetchRemote (key : String)
  | transition (key target : String)
  | updateFields (key : String) (fields : List String)
  | postComment (key text : String)
  | addLink (inward type outward : String)
  | removeLink (inward type outward : String)
  | save (key : String)
  | clearPend (path : String)
deriving Repr, DecidableEq

/-- The string payload of a pending status edit. -/
def statusValue : PendVal → String
  | PendVal.str s => s
  | _ => ""

/-- The loop over pending entries: `comments`/`links` are skipped, a
`status` edit performs a transition inline, every other field is mapped and
collected into the batched field update. -/
def applyFieldLoop (mapField : String → String) (key : String) :
    Pending → List ApplyEv × List String
  | [] => ([], [])
  | (f, v) :: rest =>
      let r := applyFieldLoop mapField key rest
      if f = "comments" ∨ f = "links" then r
      else if f = "status" then (ApplyEv.transition key (statusValue v) :: r.1, r.2)
      else (r.1, mapField f :: r.2)

/-- The batched field update, issued only when some field was collected. -/
def applyUpdateEvs (key : String) (fieldUpdates : List String) : List ApplyEv :=
  if fieldUpdates ≠ [] then [ApplyEv.updateFields key fieldUpdates] else []

/-- Queued comments are each submitted individually, in order. -/
def applyCommentEvs (key : String) (pending : Pending) : List ApplyEv :=
  match pendLookup pending "comments" with
  | some (PendVal.comments cs) => cs.map fun c => ApplyEv.postComment key c.text
  | _ => []

/-- Queued link operations are each submitted, dispatched on their action. -/
def applyLinkEvs (pending : Pending) : List ApplyEv :=
  match pendLookup pending "links" with
  | some (PendVal.links ls) =>
      (ls.map fun l =>
        if l.action = "add" then [ApplyEv.addLink l.inwardKey l.type l.outwardKey]
        else if l.action = "remove" then
          [ApplyEv.removeLink l.inwardKey l.type l.outwardKey]
        else []).flatten
  | _ => []

/-- The success-path operation sequence of `applyTicketChanges`. -/
def applyTicketChangesEvents (mapField : String → String)
    (ticket : StoredTicket) (filePath : String) : List ApplyEv :=
  if optStrTruthy ticket.offline.deleted then
    [ApplyEv.deleteRemote ticket.key, ApplyEv.unlinkLocal filePath]
  else
    match ticket.offline.pending with
    | none => []
    | some pending =>
        let r := applyFieldLoop mapField ticket.key pending
        ApplyEv.fetchRemote ticket.key ::
          (r.1 ++ applyUpdateEvs ticket.key r.2 ++ applyCommentEvs ticket.key pending ++
            applyLinkEvs pending ++
            [ApplyEv.fetchRemote ticket.key, ApplyEv.save ticket.key,
             ApplyEv.clearPend filePath])

/-! ## Id resolution (`src/lib/id.mjs` lines 31-104)

The JavaScript string primitives used here (`toLowerCase`, `toUpperCase`,
`startsWith`, `endsWith`, `substring`, `trim`) are embedded as
character-list operations with identical behavior on the ASCII data they
are applied to. -/

/-- `toLowerCase` on one character. -/
def jsLowerChar (c : Char) : Char :=
  if 'A' ≤ c ∧ c ≤ 'Z' then Char.ofNat (c.toNat + 32) else c

/-- `toUpperCase` on one character. -/
def jsUpperChar (c : Char) : Char :=
  if 'a' ≤ c ∧ c ≤ 'z' then Char.ofNat (c.toNat - 32) else c

/-- `String.prototype.toLowerCase`. -/
def jsToLower (s : String) : String := String.mk (s.toList.map jsLowerChar)

/-- `String.prototype.toUpperCase`. -/
def jsToUpper (s : String) : String := String.mk (s.toList.map jsUpperChar)

/-- `String.prototype.startsWith`. -/
def jsStartsWith (s pre : String) : Bool := pre.toList.isPrefixOf s.toList

/-- `String.prototype.endsWith`. -/
def jsEndsWith (s suf : String) : Bool := suf.toList.isSuffixOf s.toList

/-- `String.prototype.trim`. -/
def jsTrim (s : String) : String := String.mk (trimChars s.toList)

/-- `substring(0, n)`. -/
def strTake (s : String) (n : Nat) : String := String.mk (s.toList.take n)

/-- The characters from position `n` on. -/
def strDrop (s : String) (n : Nat) : String := String.mk (s.toList.drop n)

/-- A storage-directory entry: filename plus the frontmatter fields read. -/
structure StoredFile where
  name : String
  key : Option String := none
  host : Option String := none
deriving Repr, DecidableEq

/-- Resolution failures raised by `resolveId`. -/
inductive ResolveError where
  | notFound (input : String)
  | ambiguous (input : String) (candidates : List String)
  | keyNotFound (key : String)
deriving Repr, DecidableEq

/-- A successful resolution: full id plus frontmatter key and host. -/
structure Resolved where
  id : String
  key : Option String := none
  host : Option String := none
deriving Repr, DecidableEq

/-- `replace(/\.md$/, '')`: strip one trailing `.md`. -/
def stripMd (f : String) : String :=
  if jsEndsWith f ".md" then strTake f (f.toList.length - 3) else f

/-- `/^[A-Z]+-\d+$/i`: letters, one dash, digits. -/
def isJiraKey (s : String) : Bool :=
  let cs := s.toList
  let letters := cs.takeWhile Char.isAlpha
  let rest := cs.drop letters.length
  decide (letters ≠ []) &&
    (match rest with
     | '-' :: ds => decide (ds ≠ []) && ds.all Char.isDigit
     | _ => false)

/-- `resolveByIdPrefix` in the source: match stored filenames by id input,
Git style. -/
def resolveByIdP (pfx : String) (files : List StoredFile) :
    Except ResolveError Resolved :=
  let hits := files.filter fun f => jsStartsWith (jsToLower f.name) pfx
  match hits with
  | [] => Except.error (ResolveError.notFound pfx)
  | [f] => Except.ok { id := stripMd f.name, key := f.key, host := f.host }
  | _ =>
      Except.error (ResolveError.ambiguous pfx
        (hits.map fun f => strTake (stripMd f.name) 8))

/-- `resolveByKey`: first stored file whose frontmatter key agrees
case-insensitively. -/
def resolveByKey (key : String) (files : List StoredFile) :
    Except ResolveError Resolved :=
  match files.find? (fun f =>
      match f.key with | some k => jsToUpper k == key | none => false) with
  | some f => Except.ok { id := stripMd f.name, key := f.key, host := f.host }
  | none => Except.error (ResolveError.keyNotFound key)

/-- `resolveId`: clean the input, keep only visible `.md` entries, dispatch
on the Jira-key shape. -/
def resolveId (input : String) (dirListing : List StoredFile) :
    Except ResolveError Resolved :=
  let cleanInput := jsTrim (stripMd input)
  let files := dirListing.filter fun f =>
    jsEndsWith f.name ".md" && !(jsStartsWith f.name "_")
  if isJiraKey cleanInput then resolveByKey (jsToUpper cleanInput) files
  else resolveByIdP (jsToLower cleanInput) files

/-! # Claims -/

/-! ## C1 — pulls preserve LocalState -/

/-- C1: running `saveIssue` (a pull) on an existing record preserves
`pending`, `deleted` and `tags` byte-for-byte (in particular they are never
cleared, whatever their contents), preserves `last_read`, and only sets
`last_sync` to the pull time, replaces `previous` (nulled exactly when the
record has never been read), and recomputes `changes_since_read` only when a
changelog was fetched. -/
theorem c1_pull_preserves_local_state (existing : StoredTicket) (issue : Issue)
    (hostUrl : String) (opts : SaveOptions) (now : String) :
    (saveIssueRecord (some existing) issue hostUrl opts now).offline.pending
        = existing.offline.pending ∧
    (saveIssueRecord (some existing) issue hostUrl opts now).offline.deleted
        = existing.offline.deleted ∧
    (saveIssueRecord (some existing) issue hostUrl opts now).offline.tags
        = existing.offline.tags ∧
    (saveIssueRecord (some existing) issue hostUrl opts now).offline.last_read
        = existing.offline.last_read ∧
    (saveIssueRecord (some existing) issue hostUrl opts now).offline.last_sync
        = some now ∧
    (saveIssueRecord (some existing) issue hostUrl opts now).offline.previous
        = (if optStrTruthy existing.offline.last_read then existing.offline.previous
           else none) ∧
    (opts.changelog = none →
      (saveIssueRecord (some existing) issue hostUrl opts now).offline.changes_since_read
        = existing.offline.changes_since_read) := by
  rcases opts with ⟨oc, ocl⟩
  unfold saveIssueRecord
  rcases ocl with _ | ⟨_ | hs⟩ <;> rcases oc with _ | cs <;>
    simp [commentBaseline] <;> split <;> simp

/-- A record carrying every kind of LocalState payload. -/
def c1Offline : Offline :=
  { last_sync := some "2026-01-01T00:00:00.000Z"
    last_read := some "2026-01-02T00:00:00.000Z"
    previous := some {}
    pending := some [("status", PendVal.str "Done")]
    deleted := some "2026-01-03T00:00:00.000Z"
    tags := some ["keep"]
    changes_since_read := some {} }

/-- A stored record with that LocalState. -/
def c1Existing : StoredTicket :=
  { key := "SRE-9", host := "https://example.com", offline := c1Offline }

/-- C1 witness: a concrete pull over a record with pending, deleted and
tags set preserves all three (and, with no changelog fetched, the change
summary too). -/
theorem c1_pull_preserves_local_state_witness :
    (saveIssueRecord (some c1Existing) { key := "SRE-9" } "https://example.com"
        {} "2026-02-01T00:00:00.000Z").offline.pending = c1Existing.offline.pending ∧
    (saveIssueRecord (some c1Existing) { key := "SRE-9" } "https://example.com"
        {} "2026-02-01T00:00:00.000Z").offline.deleted = c1Existing.offline.deleted ∧
    (saveIssueRecord (some c1Existing) { key := "SRE-9" } "https://example.com"
        {} "2026-02-01T00:00:00.000Z").offline.tags = c1Existing.offline.tags ∧
    (saveIssueRecord (some c1Existing) { key := "SRE-9" } "https://example.com"
        {} "2026-02-01T00:00:00.000Z").offline.changes_since_read
      = c1Existing.offline.changes_since_read :=
  ⟨(c1_pull_preserves_local_state c1Existing { key := "SRE-9" } "https://example.com"
      {} "2026-02-01T00:00:00.000Z").1,
   (c1_pull_preserves_local_state c1Existing { key := "SRE-9" } "https://example.com"
      {} "2026-02-01T00:00:00.000Z").2.1,
   (c1_pull_preserves_local_state c1Existing { key := "SRE-9" } "https://example.com"
      {} "2026-02-01T00:00:00.000Z").2.2.1,
   (c1_pull_preserves_local_state c1Existing { key := "SRE-9" } "https://example.com"
      {} "2026-02-01T00:00:00.000Z").2.2.2.2.2.2 rfl⟩

/-! ## C10 — saving without comments drops stored comments -/

/-- C10: when `saveIssue` is called without a non-empty `comments` option
(as the reconciler's finalization does), the persisted record carries no
`_comments` — even if the previously stored record had some — so the
stored-comment baseline used by the next pull's new-comment detection is 0. -/
theorem c10_save_without_comments_resets_baseline (existing : StoredTicket)
    (issue : Issue) (hostUrl : String) (opts : SaveOptions) (now : String)
    (h : opts.comments = none ∨ opts.comments = some []) :
    (saveIssueRecord (some existing) issue hostUrl opts now).comments = none ∧
    commentBaseline (some (saveIssueRecord (some existing) issue hostUrl opts now)) = 0 := by
  rcases opts with ⟨oc, ocl⟩
  unfold saveIssueRecord
  rcases h with h | h <;> simp only at h <;> subst h <;>
    rcases ocl with _ | ⟨_ | hs⟩ <;>
    simp [commentBaseline, issueToStorage]

/-- A record that already holds two stored comments. -/
def c10Existing : StoredTicket :=
  { key := "SRE-1", host := "https://example.com"
    comments := some [{ id := some "1" }, { id := some "2" }]
    offline := { last_read := some "2026-01-10T00:00:00.000Z" } }

/-- C10 witness: on a concrete record with two stored comments, a save with
empty options persists no comments and resets the baseline to zero. -/
theorem c10_save_without_comments_resets_baseline_witness :
    commentBaseline (some c10Existing) = 2 ∧
    ((saveIssueRecord (some c10Existing) { key := "SRE-1" } "https://example.com"
        {} "2026-02-02T00:00:00.000Z").comments = none ∧
      commentBaseline (some (saveIssueRecord (some c10Existing) { key := "SRE-1" }
        "https://example.com" {} "2026-02-02T00:00:00.000Z")) = 0) :=
  ⟨rfl, c10_save_without_comments_resets_baseline c10Existing { key := "SRE-1" }
    "https://example.com" {} "2026-02-02T00:00:00.000Z" (Or.inl rfl)⟩

/-! ## C3 — record writes are not temp-file-and-rename atomic -/

/-- Persisting `target` through a transactional write-then-rename pattern:
no direct write of the target, and the content arrives by renaming a
temporary file over it. -/
def atomicPersist (ops : List FsOp) (target : String) : Prop :=
  (∀ c, FsOp.write target c ∉ ops) ∧
  (∃ tmp c, tmp ≠ target ∧ FsOp.write tmp c ∈ ops ∧ FsOp.rename tmp target ∈ ops)

/-- C3 counterexample: a concrete `saveIssue` call writes the final record
path directly — it does not follow the write-to-temp-then-rename pattern
the claim asserts (there is no rename at all). -/
theorem c3_counterexample :
    ¬ atomicPersist
      (saveIssueFsOps (fun _ => "") (fun _ => "") "store" none
        { key := "SRE-1" } "https://example.com" {} "2026-01-01T00:00:00.000Z")
      (recordPath "store" (generateId "https://example.com" "SRE-1")) := by
  intro h
  exact h.1
    (saveIssueContent (fun _ => "") (fun _ => "")
      (saveIssueRecord none { key := "SRE-1" } "https://example.com" {}
        "2026-01-01T00:00:00.000Z"))
    (by simp [saveIssueFsOps])

/-- C3 amended: every `saveIssue` and every `updateOffline` persists its
record with exactly one direct `writeFileSync` of the fully serialized
content (frontmatter and body together) straight to the record's final
path; no temporary file, rename, or other transactional primitive is
involved, so single-record atomicity is not provided by the write path. -/
theorem c3_amended_single_direct_write (yamlDump : StoredTicket → String)
    (fmtDate : Option String → String) (storageDir : String)
    (existing : Option StoredTicket) (issue : Issue) (hostUrl : String)
    (opts : SaveOptions) (now : String) (filePath : String)
    (ticket : StoredTicket) (body : String) (p : OfflinePatch) :
    saveIssueFsOps yamlDump fmtDate storageDir existing issue hostUrl opts now
      = [FsOp.write (recordPath storageDir (generateId hostUrl issue.key))
          (saveIssueContent yamlDump fmtDate
            (saveIssueRecord existing issue hostUrl opts now))] ∧
    updateOfflineFsOps yamlDump filePath ticket body p
      = [FsOp.write filePath
          ("---\n" ++ yamlDump (updateOffline ticket p) ++ "---\n\n" ++ body)] ∧
    (∀ op ∈ saveIssueFsOps yamlDump fmtDate storageDir existing issue hostUrl opts now,
      ∀ s d, op ≠ FsOp.rename s d) := by
  refine ⟨rfl, rfl, ?_⟩
  intro op hop s d
  simp [saveIssueFsOps] at hop
  simp [hop]

/-- C3 amended witness: a concrete save performs exactly one direct write
to the final path, and that operation is not a rename. -/
theorem c3_amended_single_direct_write_witness :
    saveIssueFsOps (fun _ => "fm") (fun _ => "d") "store" none
        { key := "SRE-1" } "https://example.com" {} "2026-01-01T00:00:00.000Z"
      = [FsOp.write (recordPath "store" (generateId "https://example.com" "SRE-1"))
          (saveIssueContent (fun _ => "fm") (fun _ => "d")
            (saveIssueRecord none { key := "SRE-1" } "https://example.com" {}
              "2026-01-01T00:00:00.000Z"))] ∧
    FsOp.write (recordPath "store" (generateId "https://example.com" "SRE-1"))
        (saveIssueContent (fun _ => "fm") (fun _ => "d")
          (saveIssueRecord none { key := "SRE-1" } "https://example.com" {}
            "2026-01-01T00:00:00.000Z"))
      ≠ FsOp.rename "store/tmp" "store/final" :=
  ⟨(c3_amended_single_direct_write (fun _ => "fm") (fun _ => "d") "store" none
      { key := "SRE-1" } "https://example.com" {} "2026-01-01T00:00:00.000Z"
      "p" { key := "SRE-1" } "b" {}).1,
   (c3_amended_single_direct_write (fun _ => "fm") (fun _ => "d") "store" none
      { key := "SRE-1" } "https://example.com" {} "2026-01-01T00:00:00.000Z"
      "p" { key := "SRE-1" } "b" {}).2.2 _ (by simp [saveIssueFsOps])
      "store/tmp" "store/final"⟩

/-! ## C9 — `generateId` is hex SHA-1 of `host:key` -/

/-- Every hex character produced is one of the sixteen hex digits. -/
theorem hexChar_mem (n : Nat) : hexChar n ∈ hexDigits := by
  unfold hexChar
  have h : n % 16 < hexDigits.length := by
    simp [hexDigits]; omega
  rw [List.getD_eq_getElem _ _ h]
  exact List.getElem_mem h

/-- The digest rendering is always exactly 40 characters. -/
theorem sha1Hex_length (msg : List Nat) : (sha1Hex msg).length = 40 := by
  unfold sha1Hex
  obtain ⟨a, b, c, d, e⟩ := sha1Words msg
  simp [toHex8, String.length]

/-- Every character of the digest rendering is a hex digit. -/
theorem sha1Hex_chars (msg : List Nat) : ∀ c ∈ (sha1Hex msg).toList, c ∈ hexDigits := by
  unfold sha1Hex
  obtain ⟨a, b, c, d, e⟩ := sha1Words msg
  intro ch hch
  simp [toHex8, String.toList] at hch
  rcases hch with h | h | h | h | h | h | h | h | h | h |
    h | h | h | h | h | h | h | h | h | h |
    h | h | h | h | h | h | h | h | h | h |
    h | h | h | h | h | h | h | h | h | h <;>
    (subst h; exact hexChar_mem _)

/-- C9: `generateId` is the hex-encoded SHA-1 digest of `host + ":" + key`,
is exactly 40 characters, each a hexadecimal digit, and is a deterministic
pure function of the pair. -/
theorem c9_generateId_is_sha1_hex (host key : String) :
    generateId host key = sha1Hex (utf8Bytes (host ++ ":" ++ key)) ∧
    (generateId host key).length = 40 ∧
    (∀ c ∈ (generateId host key).toList, c ∈ hexDigits) ∧
    (∀ host2 key2, host = host2 → key = key2 →
      generateId host key = generateId host2 key2) := by
  refine ⟨rfl, sha1Hex_length _, sha1Hex_chars _, ?_⟩
  intro host2 key2 h1 h2
  subst h1; subst h2; rfl

/-- C9 witness: the id of a concrete pair, checked against the standard
SHA-1 digest of `"https://example.com:ABC-1"`. -/
theorem c9_generateId_is_sha1_hex_witness :
    (generateId "https://example.com" "ABC-1").length = 40 ∧
    generateId "https://example.com" "ABC-1"
      = generateId "https://example.com" "ABC-1" ∧
    generateId "https://example.com" "ABC-1"
      = "82e2dcb6419d791c179019d0c6a942ca3b1d25ea" :=
  ⟨(c9_generateId_is_sha1_hex "https://example.com" "ABC-1").2.1,
   (c9_generateId_is_sha1_hex "https://example.com" "ABC-1").2.2.2
     "https://example.com" "ABC-1" rfl rfl,
   by decide⟩

/-- The embedded SHA-1 agrees with the standard test vector for `"abc"` and
with the empty-message digest. -/
theorem sha1Hex_test_vectors :
    sha1Hex (utf8Bytes "abc") = "a9993e364706816aba3e25717850c26c9cd0d89d" ∧
    sha1Hex (utf8Bytes "") = "da39a3ee5e6b4b0d3255bfef95601890afd80709" := by
  constructor <;> decide

/-! ## C2 — pending is cleared only after re-fetch and save -/

/-- The field loop emits no clear-pending operation. -/
theorem applyFieldLoop_no_clear (mapField : String → String) (key : String)
    (p : Pending) (q : String) :
    ApplyEv.clearPend q ∉ (applyFieldLoop mapField key p).1 := by
  induction p with
  | nil => simp [applyFieldLoop]
  | cons kv rest ih =>
      obtain ⟨f, v⟩ := kv
      simp only [applyFieldLoop]
      split_ifs <;> simp_all

/-- The batched-update step emits no clear-pending operation. -/
theorem applyUpdateEvs_no_clear (key : String) (flds : List String) (q : String) :
    ApplyEv.clearPend q ∉ applyUpdateEvs key flds := by
  unfold applyUpdateEvs
  split_ifs <;> simp

/-- The comment step emits no clear-pending operation. -/
theorem applyCommentEvs_no_clear (key : String) (p : Pending) (q : String) :
    ApplyEv.clearPend q ∉ applyCommentEvs key p := by
  unfold applyCommentEvs
  split
  · rename_i cs _
    simp
  · simp

/-- The link step emits no clear-pending operation. -/
theorem applyLinkEvs_no_clear (p : Pending) (q : String) :
    ApplyEv.clearPend q ∉ applyLinkEvs p := by
  unfold applyLinkEvs
  split
  · rename_i ls _
    intro hmem
    simp only [List.mem_flatten, List.mem_map] at hmem
    obtain ⟨l, ⟨lk, _, hl⟩, hin⟩ := hmem
    subst hl
    split_ifs at hin <;> simp_all
  · simp

/-- C2: whenever the reconciler's per-record apply clears `pending`, its
operation sequence ends with the re-fetch of the remote item, then the local
save, then the clear — and no clear occurs anywhere earlier, so `pending` is
cleared only after the re-fetch and the save have both completed. -/
theorem c2_clear_only_after_refetch_and_save (mapField : String → String)
    (ticket : StoredTicket) (filePath : String)
    (h : ApplyEv.clearPend filePath ∈ applyTicketChangesEvents mapField ticket filePath) :
    ∃ pre, applyTicketChangesEvents mapField ticket filePath
        = pre ++ [ApplyEv.fetchRemote ticket.key, ApplyEv.save ticket.key,
            ApplyEv.clearPend filePath] ∧
      ∀ q, ApplyEv.clearPend q ∉ pre := by
  by_cases hd : optStrTruthy ticket.offline.deleted
  · rw [applyTicketChangesEvents, if_pos hd] at h
    simp at h
  · cases hp : ticket.offline.pending with
    | none =>
        rw [applyTicketChangesEvents, if_neg hd, hp] at h
        simp at h
    | some pending =>
        rw [applyTicketChangesEvents, if_neg hd, hp]
        refine ⟨ApplyEv.fetchRemote ticket.key ::
          ((applyFieldLoop mapField ticket.key pending).1 ++
            applyUpdateEvs ticket.key (applyFieldLoop mapField ticket.key pending).2 ++
            applyCommentEvs ticket.key pending ++ applyLinkEvs pending), ?_, ?_⟩
        · simp
        · intro q
          simp only [List.mem_cons, List.mem_append]
          rintro (h1 | ((((h1 | h1) | h1) | h1)))
          · exact ApplyEv.noConfusion h1
          · exact applyFieldLoop_no_clear mapField ticket.key pending q h1
          · exact applyUpdateEvs_no_clear ticket.key _ q h1
          · exact applyCommentEvs_no_clear ticket.key pending q h1
          · exact applyLinkEvs_no_clear pending q h1

/-- A concrete pending set: one status edit, one label edit, one queued
comment and one queued link. -/
def c2Pending : Pending :=
  [("status", PendVal.str "In Progress"),
   ("labels", PendVal.strList ["urgent"]),
   ("comments", PendVal.comments [{ text := "ping" }]),
   ("links", PendVal.links [{ action := "add", inwardKey := "SRE-7", outwardKey := "SRE-8", type := "Blocks" }])]

/-- A concrete record carrying that pending set. -/
def c2Ticket : StoredTicket :=
  { key := "SRE-7", host := "https://example.com"
    offline := { pending := some c2Pending } }

/-- C2 witness: on a concrete pending record, the apply sequence ends with
fetch, save, clear and contains no earlier clear. -/
theorem c2_clear_only_after_refetch_and_save_witness :
    ∃ pre, applyTicketChangesEvents (fun f => f) c2Ticket "store/x.md"
        = pre ++ [ApplyEv.fetchRemote "SRE-7", ApplyEv.save "SRE-7",
            ApplyEv.clearPend "store/x.md"] ∧
      ∀ q, ApplyEv.clearPend q ∉ pre :=
  c2_clear_only_after_refetch_and_save (fun f => f) c2Ticket "store/x.md"
    (by simp [applyTicketChangesEvents, c2Ticket, c2Pending, applyFieldLoop,
      applyUpdateEvs, applyCommentEvs, applyLinkEvs, pendLookup, optStrTruthy])

/-! ## C4 — cursor advancement -/

/-- The non-empty `updated` timestamps among a list of fetched issues, in
fetch order — the values the running maximum ranges over. -/
def updatedTimestamps (issues : List Issue) : List String :=
  issues.filterMap fun i => i.fields.updated.bind fun u => if u = "" then none else some u

/-- One step of the running maximum, upper-bound form: any value covered by
the accumulator or by the issue is bounded by the step result. -/
theorem trackMaxUpdated_step_ub (acc : Option String) (i : Issue) (u : String)
    (hu : acc = some u ∨ (i.fields.updated = some u ∧ u ≠ "")) :
    ∃ m, trackMaxUpdated acc i = some m ∧ u ≤ m := by
  cases hv : i.fields.updated with
  | none =>
      rcases hu with hu | ⟨hu, _⟩
      · exact ⟨u, by simp [trackMaxUpdated, hv, hu], le_refl u⟩
      · rw [hv] at hu; exact absurd hu (by simp)
  | some v =>
      by_cases hve : v = ""
      · rcases hu with hu | ⟨hu, hne⟩
        · exact ⟨u, by simp [trackMaxUpdated, hv, hve, hu], le_refl u⟩
        · rw [hv] at hu
          injection hu with hu
          exact absurd hu.symm (by simp_all)
      · cases hacc : acc with
        | none =>
            rcases hu with hu | ⟨hu, hne⟩
            · rw [hacc] at hu; exact absurd hu (by simp)
            · rw [hv] at hu
              injection hu with hu
              subst hu
              exact ⟨v, by simp [trackMaxUpdated, hv, hve], le_refl v⟩
        | some m0 =>
            by_cases hlt : m0 < v
            · refine ⟨v, by simp [trackMaxUpdated, hv, hve, hlt], ?_⟩
              rcases hu with hu | ⟨hu, hne⟩
              · rw [hacc] at hu
                injection hu with hu
                subst hu
                exact le_of_lt hlt
              · rw [hv] at hu
                injection hu with hu
                subst hu
                exact le_refl v
            · refine ⟨m0, by simp [trackMaxUpdated, hv, hve, hlt], ?_⟩
              rcases hu with hu | ⟨hu, hne⟩
              · rw [hacc] at hu
                injection hu with hu
                subst hu
                exact le_refl m0
              · rw [hv] at hu
                injection hu with hu
                subst hu
                exact le_of_not_lt hlt

/-- The running maximum never moves from `some` back to `none`. -/
theorem trackMaxUpdated_some (acc : Option String) (i : Issue) (m : String)
    (h : acc = some m) : ∃ m1, trackMaxUpdated acc i = some m1 := by
  subst h
  cases hv : i.fields.updated with
  | none => exact ⟨m, by simp [trackMaxUpdated, hv]⟩
  | some v =>
      by_cases hve : v = ""
      · exact ⟨m, by simp [trackMaxUpdated, hv, hve]⟩
      · by_cases hlt : m < v
        · exact ⟨v, by simp [trackMaxUpdated, hv, hve, hlt]⟩
        · exact ⟨m, by simp [trackMaxUpdated, hv, hve, hlt]⟩

/-- If the fold ends in `none`, it started at `none` and saw no timestamps. -/
theorem foldl_trackMax_none (issues : List Issue) (acc : Option String)
    (h : issues.foldl trackMaxUpdated acc = none) :
    acc = none ∧ updatedTimestamps issues = [] := by
  induction issues generalizing acc with
  | nil => exact ⟨by simpa using h, rfl⟩
  | cons i rest ih =>
      have h' : rest.foldl trackMaxUpdated (trackMaxUpdated acc i) = none := by
        simpa using h
      obtain ⟨h1, h2⟩ := ih _ h'
      cases hv : i.fields.updated with
      | none =>
          rw [trackMaxUpdated, hv] at h1
          exact ⟨h1, by simp [updatedTimestamps, hv]; simpa [updatedTimestamps] using h2⟩
      | some v =>
          by_cases hve : v = ""
          · subst hve
            rw [trackMaxUpdated, hv] at h1
            simp at h1
            exact ⟨h1, by simp [updatedTimestamps, hv]; simpa [updatedTimestamps] using h2⟩
          · exfalso
            cases hacc : acc with
            | none => rw [trackMaxUpdated, hv, hacc] at h1; simp [hve] at h1
            | some m0 =>
                rw [trackMaxUpdated, hv, hacc] at h1
                by_cases hlt : m0 < v <;> simp [hve, hlt] at h1

/-- If the fold ends in `some m`, then `m` is the start value or one of the
observed timestamps. -/
theorem foldl_trackMax_mem (issues : List Issue) (acc : Option String) (m : String)
    (h : issues.foldl trackMaxUpdated acc = some m) :
    acc = some m ∨ m ∈ updatedTimestamps issues := by
  induction issues generalizing acc with
  | nil => left; simpa using h
  | cons i rest ih =>
      have h' : rest.foldl trackMaxUpdated (trackMaxUpdated acc i) = some m := by
        simpa using h
      rcases ih _ h' with h1 | h1
      · cases hv : i.fields.updated with
        | none => left; rw [trackMaxUpdated, hv] at h1; exact h1
        | some v =>
            by_cases hve : v = ""
            · left; subst hve; rw [trackMaxUpdated, hv] at h1; simpa using h1
            · cases hacc : acc with
              | none =>
                  right
                  rw [trackMaxUpdated, hv, hacc] at h1
                  simp [hve] at h1
                  subst h1
                  exact List.mem_filterMap.mpr ⟨i, List.mem_cons_self _ _, by simp [hv, hve]⟩
              | some m0 =>
                  rw [trackMaxUpdated, hv, hacc] at h1
                  by_cases hlt : m0 < v <;> simp [hve, hlt] at h1
                  · right
                    subst h1
                    exact List.mem_filterMap.mpr ⟨i, List.mem_cons_self _ _, by simp [hv, hve]⟩
                  · left
                    rw [h1]
      · right
        rcases List.mem_filterMap.mp h1 with ⟨j, hj, hjm⟩
        exact List.mem_filterMap.mpr ⟨j, List.mem_cons_of_mem _ hj, hjm⟩

/-- Every observed timestamp (and the start value) is bounded by the fold
result. -/
theorem foldl_trackMax_ub (issues : List Issue) : ∀ (acc : Option String) (m u : String),
    issues.foldl trackMaxUpdated acc = some m →
    (acc = some u ∨ u ∈ updatedTimestamps issues) → u ≤ m := by
  induction issues with
  | nil =>
      intro acc m u h hu
      simp at h
      rcases hu with hu | hu
      · rw [h] at hu; injection hu with hu; exact le_of_eq hu.symm
      · simp [updatedTimestamps] at hu
  | cons i rest ih =>
      intro acc m u h hu
      have h' : rest.foldl trackMaxUpdated (trackMaxUpdated acc i) = some m := by
        simpa using h
      rcases hu with hu | hu
      · obtain ⟨m1, hm1, hum1⟩ := trackMaxUpdated_step_ub acc i u (Or.inl hu)
        exact le_trans hum1 (ih _ m m1 h' (Or.inl hm1))
      · rcases List.mem_filterMap.mp hu with ⟨j, hj, hjm⟩
        have hju : j.fields.updated = some u ∧ u ≠ "" := by
          cases hv : j.fields.updated with
          | none => rw [hv] at hjm; simp at hjm
          | some v =>
              rw [hv] at hjm
              by_cases hve : v = "" <;> simp_all [hve]
        rcases List.mem_cons.mp hj with hj | hj
        · subst hj
          obtain ⟨m1, hm1, hum1⟩ := trackMaxUpdated_step_ub acc j u (Or.inr hju)
          exact le_trans hum1 (ih _ m m1 h' (Or.inl hm1))
        · refine ih _ m u h' (Or.inr ?_)
          exact List.mem_filterMap.mpr ⟨j, hj, hjm⟩

/-- If no timestamps are observed, the fold returns its start value. -/
theorem foldl_trackMax_empty (issues : List Issue)
    (h : updatedTimestamps issues = []) (acc : Option String) :
    issues.foldl trackMaxUpdated acc = acc := by
  induction issues generalizing acc with
  | nil => rfl
  | cons i rest ih =>
      have hsplit : (i.fields.updated.bind fun u => if u = "" then none else some u)
          = none ∧ updatedTimestamps rest = [] := by
        rcases hfi : (i.fields.updated.bind fun u => if u = "" then none else some u)
          with _ | b
        · refine ⟨rfl, ?_⟩
          simpa [updatedTimestamps, List.filterMap_cons, hfi] using h
        · exfalso
          have hcontra := h
          simp [updatedTimestamps, List.filterMap_cons, hfi] at hcontra
      have hrest : updatedTimestamps rest = [] := hsplit.2
      have hstep : trackMaxUpdated acc i = acc := by
        have h0 := hsplit.1
        cases hv : i.fields.updated with
        | none => simp [trackMaxUpdated, hv]
        | some v =>
            rw [hv] at h0
            by_cases hve : v = ""
            · simp [trackMaxUpdated, hv, hve]
            · simp [hve] at h0
      simp only [List.foldl_cons, hstep]
      exact ih hrest acc

/-- C4 counterexample: the stored cursor is not always derived from the
remote clock, and it can regress.  When a pull fetches zero items the code
stores the local `pullStartTime` (so the cursor depends on the local clock),
and the previous cursor never enters the computation, so a full refresh that
fetches only an old item overwrites a newer cursor with an older remote
timestamp. -/
theorem c4_counterexample :
    (¬ ∀ (issues : List Issue) (s1 s2 : String),
        patternSyncTimestamp issues s1 = patternSyncTimestamp issues s2) ∧
    advanceCursor (some "2026-01-01T00:00:00.000+0000")
        [{ key := "OLD-1", fields := { updated := some "2020-06-01T00:00:00.000+0000" } }]
        "2026-02-02T00:00:00.000+0000" = "2020-06-01T00:00:00.000+0000" ∧
    ("2020-06-01T00:00:00.000+0000" : String) < "2026-01-01T00:00:00.000+0000" := by
  refine ⟨fun h => ?_, rfl, by rw [String.lt_iff_toList_lt]; decide⟩
  have := h [] "A" "B"
  simp [patternSyncTimestamp] at this

/-- C4 amended: after a pull of one pattern, the stored cursor equals the
maximum remote `updated` timestamp among the items fetched in that pull when
there is one — a value from the remote clock — and falls back to the local
pull start time only when no fetched item carries a timestamp; the
previously stored cursor never enters the computation (so monotonicity holds
only for incremental pulls, where every fetched item is at least as new as
the old cursor). -/
theorem c4_amended_cursor_is_per_pull_max (issues : List Issue) (pullStartTime : String) :
    (updatedTimestamps issues = [] →
      patternSyncTimestamp issues pullStartTime = pullStartTime) ∧
    (updatedTimestamps issues ≠ [] →
      patternSyncTimestamp issues pullStartTime ∈ updatedTimestamps issues ∧
      ∀ u ∈ updatedTimestamps issues, u ≤ patternSyncTimestamp issues pullStartTime) ∧
    (∀ previousCursor, advanceCursor previousCursor issues pullStartTime
        = patternSyncTimestamp issues pullStartTime) := by
  refine ⟨?_, ?_, fun _ => rfl⟩
  · intro h
    unfold patternSyncTimestamp
    rw [foldl_trackMax_empty issues h none]
    rfl
  · intro h
    cases hf : issues.foldl trackMaxUpdated none with
    | none => exact absurd (foldl_trackMax_none issues none hf).2 h
    | some m =>
        have hsync : patternSyncTimestamp issues pullStartTime = m := by
          unfold patternSyncTimestamp
          rw [hf]
          rfl
        rw [hsync]
        constructor
        · rcases foldl_trackMax_mem issues none m hf with h1 | h1
          · exact absurd h1 (by simp)
          · exact h1
        · intro u hu
          exact foldl_trackMax_ub issues none m u hf (Or.inr hu)

/-- Two concrete fetched issues for the C4 witness. -/
def c4Issues : List Issue :=
  [{ key := "SRE-1", fields := { updated := some "2026-01-19T09:00:00.000+0000" } },
   { key := "SRE-2", fields := { updated := some "2026-01-21T12:00:00.000+0000" } }]

/-- C4 witness: on a concrete two-item pull the stored cursor is one of the
fetched items' remote timestamps. -/
theorem c4_amended_cursor_is_per_pull_max_witness :
    patternSyncTimestamp c4Issues "2026-02-02T00:00:00.000+0000"
      ∈ updatedTimestamps c4Issues :=
  ((c4_amended_cursor_is_per_pull_max c4Issues "2026-02-02T00:00:00.000+0000").2.1
    (by decide)).1

/-! ## C5 — failure isolation in a pull -/

/-- The claim as stated: any individual item whose own processing succeeds
is saved, no matter what fails around it in the same pattern. -/
def perItemFailureIsolation : Prop :=
  ∀ (patterns : List PatternFx) (p : PatternFx), p ∈ patterns → p.searchOk = true →
    ∀ fx ∈ p.items, fx.saveOk = true →
      ∃ s ∈ pullFromHostSaves patterns, s.key = fx.key

/-- A pattern whose first item fails to save while its second is healthy. -/
def c5Pattern : PatternFx :=
  { searchOk := true, items := [{ key := "A", saveOk := false }, { key := "B" }] }

/-- C5 counterexample: a save failure on the first item of a pattern aborts
the remaining items of that same pattern — item `B` is healthy yet nothing
is saved — so per-item failure isolation does not hold as claimed. -/
theorem c5_counterexample :
    ¬ perItemFailureIsolation ∧ pullFromHostSaves [c5Pattern] = [] := by
  constructor
  · intro h
    have hmem : ({ key := "B" } : ItemFx) ∈ c5Pattern.items := by
      simp [c5Pattern]
    have := h [c5Pattern] c5Pattern (by simp) rfl { key := "B" } hmem rfl
    rcases this with ⟨s, hs, _⟩
    simp [pullFromHostSaves, runPattern, processItems, c5Pattern] at hs
  · rfl

/-- C5 amended: enrichment (comments/changelog) failures are isolated per
item — when no save fails, every item of the pattern is saved, carrying
whatever enrichment succeeded; a save failure ends that pattern's item loop
(later items of the pattern are skipped); and each pattern's outcome is
independent of the other patterns, so an error in one pattern never aborts
the remaining patterns. -/
theorem c5_amended_failure_isolation :
    (∀ items : List ItemFx, (∀ fx ∈ items, fx.saveOk = true) →
      processItems items = items.map fun fx =>
        { key := fx.key, withComments := fx.commentsOk,
          withChangelog := fx.changelogOk }) ∧
    (∀ (ps1 : List PatternFx) (p : PatternFx) (ps2 : List PatternFx),
      pullFromHostSaves (ps1 ++ p :: ps2)
        = pullFromHostSaves ps1 ++ runPattern p ++ pullFromHostSaves ps2) ∧
    (∀ (pre : List ItemFx) (fx : ItemFx) (post : List ItemFx), fx.saveOk = false →
      processItems (pre ++ fx :: post) = processItems pre) := by
  refine ⟨?_, ?_, ?_⟩
  · intro items hall
    induction items with
    | nil => rfl
    | cons fx rest ih =>
        have hfx : fx.saveOk = true := hall fx (List.mem_cons_self _ _)
        rw [processItems, if_pos hfx, ih fun g hg => hall g (List.mem_cons_of_mem _ hg)]
        rfl
  · intro ps1 p ps2
    simp [pullFromHostSaves]
  · intro pre fx post hfail
    induction pre with
    | nil => simp [processItems, hfail]
    | cons a as ih =>
        by_cases ha : a.saveOk <;> simp [processItems, ha, ih]

/-- C5 witness: two items whose enrichments partially fail are both saved,
keeping whatever enrichment succeeded. -/
theorem c5_amended_failure_isolation_witness :
    processItems
      [{ key := "A", commentsOk := false }, { key := "B", changelogOk := false }]
      = [{ key := "A", withComments := false, withChangelog := true },
         { key := "B", withComments := true, withChangelog := false }] := by
  have h := c5_amended_failure_isolation.1
    [{ key := "A", commentsOk := false }, { key := "B", changelogOk := false }]
    (by decide)
  simpa using h

/-! ## C6 — prefix resolution -/

/-- A string is its first eight characters followed by the rest. -/
theorem take8_append_drop8 (s : String) : strTake s 8 ++ strDrop s 8 = s := by
  show String.mk (s.1.take 8 ++ s.1.drop 8) = s
  rw [List.take_append_drop]

/-- C6: over any stored record set, resolving an id input has exactly
three outcomes: no filename matched by the input fails with the not-found
error; a unique match returns that record's id, key and host; and two or
more matches fail with the ambiguous error whose message enumerates, for
every conflicting candidate, the first eight characters of its id — a
prefix of that candidate. -/
theorem c6_resolve_trichotomy (pfx : String) (files : List StoredFile) :
    ((files.filter fun f => jsStartsWith (jsToLower f.name) pfx) = [] →
      resolveByIdP pfx files = Except.error (ResolveError.notFound pfx)) ∧
    (∀ f, (files.filter fun f => jsStartsWith (jsToLower f.name) pfx) = [f] →
      resolveByIdP pfx files
        = Except.ok { id := stripMd f.name, key := f.key, host := f.host }) ∧
    (∀ f1 f2 rest,
      (files.filter fun f => jsStartsWith (jsToLower f.name) pfx) = f1 :: f2 :: rest →
      resolveByIdP pfx files = Except.error (ResolveError.ambiguous pfx
        ((f1 :: f2 :: rest).map fun f => strTake (stripMd f.name) 8)) ∧
      ∀ f ∈ f1 :: f2 :: rest,
        strTake (stripMd f.name) 8 ++ strDrop (stripMd f.name) 8 = stripMd f.name) := by
  refine ⟨?_, ?_, ?_⟩
  · intro h
    unfold resolveByIdP
    rw [h]
  · intro f h
    unfold resolveByIdP
    rw [h]
  · intro f1 f2 rest h
    constructor
    · unfold resolveByIdP
      rw [h]
    · intro f _
      exact take8_append_drop8 _

/-- A stored record whose id starts with `abc123`. -/
def c6File1 : StoredFile :=
  { name := "abc1234567890abcdef04321fedcba098765abcd.md", key := some "SRE-10", host := some "https://example.com" }

/-- A stored record whose id starts with `abcdef`. -/
def c6File2 : StoredFile :=
  { name := "abcdef7890abcdef1234567890abcdef12345678.md", key := some "SRE-11", host := some "https://example.com" }

/-- Two stored records whose ids share the prefix `abc`. -/
def c6Files : List StoredFile := [c6File1, c6File2]

/-- C6 witness: with stored ids `abc123…` and `abcdef…`, resolving `abc`
is ambiguous and the message lists a distinct eight-character prefix of each
candidate; resolving `abc123` uniquely returns the first record; resolving
an unmatched input is not found. -/
theorem c6_resolve_trichotomy_witness :
    resolveByIdP "abc" c6Files
      = Except.error (ResolveError.ambiguous "abc" ["abc12345", "abcdef78"]) ∧
    resolveByIdP "abc123" c6Files
      = Except.ok { id := "abc1234567890abcdef04321fedcba098765abcd", key := some "SRE-10", host := some "https://example.com" } ∧
    resolveByIdP "zzz" c6Files = Except.error (ResolveError.notFound "zzz") :=
  ⟨((c6_resolve_trichotomy "abc" c6Files).2.2 c6File1 c6File2 [] (by decide)).1,
   (c6_resolve_trichotomy "abc123" c6Files).2.1 c6File1 (by decide),
   (c6_resolve_trichotomy "zzz" c6Files).1 (by decide)⟩

/-! ## C7 — ORDER BY is preserved and kept last -/

/-- A successful whitespace-run scan decomposes the input: a non-empty,
all-whitespace run followed by the captured clause. -/
theorem wsRunToOrder_split (l cap : List Char) (h : wsRunToOrder l = some cap) :
    ∃ ws, l = ws ++ cap ∧ ws ≠ [] ∧ (∀ c ∈ ws, isWsChar c = true) ∧
      matchOrderAt cap = true := by
  induction l with
  | nil => simp [wsRunToOrder] at h
  | cons c cs ih =>
      rw [wsRunToOrder] at h
      by_cases hw : isWsChar c
      · rw [if_pos hw] at h
        by_cases hm : matchOrderAt cs
        · rw [if_pos hm] at h
          injection h with h
          subst h
          exact ⟨[c], rfl, by simp, by simpa using hw, hm⟩
        · rw [if_neg hm] at h
          obtain ⟨ws, heq, hne, hws, hcap⟩ := ih h
          refine ⟨c :: ws, by simp [heq], by simp, ?_, hcap⟩
          intro x hx
          rcases List.mem_cons.mp hx with hx | hx
          · subst hx; simpa using hw
          · exact hws x hx
      · rw [if_neg hw] at h
        exact absurd h (by simp)

/-- The leftmost regex match decomposes the base JQL into the part before
the match, a non-empty whitespace run, and the captured ordering clause. -/
theorem findOrderBy_split (l : List Char) :
    ∀ before cap, findOrderBy l = some (before, cap) →
    ∃ ws, l = before ++ ws ++ cap ∧ ws ≠ [] ∧ (∀ c ∈ ws, isWsChar c = true) ∧
      matchOrderAt cap = true := by
  induction l with
  | nil => intro before cap h; simp [findOrderBy] at h
  | cons c cs ih =>
      intro before cap h
      rw [findOrderBy] at h
      cases hw : wsRunToOrder (c :: cs) with
      | some cap' =>
          rw [hw] at h
          injection h with h
          injection h with h1 h2
          subst h1; subst h2
          obtain ⟨ws, heq, hne, hws, hcap⟩ := wsRunToOrder_split _ _ hw
          exact ⟨ws, by simpa using heq, hne, hws, hcap⟩
      | none =>
          rw [hw] at h
          cases hf : findOrderBy cs with
          | none => rw [hf] at h; exact absurd h (by simp)
          | some bc =>
              obtain ⟨b', c'⟩ := bc
              rw [hf] at h
              injection h with h
              injection h with h1 h2
              subst h1; subst h2
              obtain ⟨ws, heq, hne, hws, hcap⟩ := ih b' c' hf
              exact ⟨ws, by simp [heq], hne, hws, hcap⟩

/-- A whitespace character never opens the captured `ORDER …` clause. -/
theorem ciEq_o_not_ws (o : Char) (h : ciEq o 'o' = true) : isWsChar o = false := by
  by_contra hc
  have hw : o ∈ wsChars := by
    have := by simpa using hc
    simpa [isWsChar] using this
  fin_cases hw <;> exact absurd h (by decide)

/-- An element that survives the leading-whitespace drop. -/
theorem mem_dropWhile_of_neg (p : Char → Bool) (l : List Char) (x : Char)
    (hx : x ∈ l) (hpx : p x = false) : x ∈ l.dropWhile p := by
  induction l with
  | nil => simp at hx
  | cons a as ih =>
      rw [List.dropWhile_cons]
      by_cases hpa : p a = true
      · rw [if_pos hpa]
        rcases List.mem_cons.mp hx with hx | hx
        · subst hx; rw [hpa] at hpx; exact absurd hpx (by simp)
        · exact ih hx
      · rw [if_neg hpa]
        exact hx

/-- If a trim comes out empty, every character was whitespace. -/
theorem trimChars_eq_nil (l : List Char) (h : trimChars l = []) :
    ∀ x ∈ l, isWsChar x = true := by
  intro x hx
  unfold trimChars at h
  have h1 : (l.dropWhile isWsChar).reverse.dropWhile isWsChar = [] := by
    have := congrArg List.reverse h
    simpa using this
  have h2 := List.dropWhile_eq_nil_iff.mp h1
  by_cases hxw : isWsChar x = true
  · exact hxw
  · exfalso
    have hx1 : x ∈ l.dropWhile isWsChar :=
      mem_dropWhile_of_neg isWsChar l x hx (by simpa using hxw)
    have hx2 : x ∈ (l.dropWhile isWsChar).reverse := List.mem_reverse.mpr hx1
    exact hxw (h2 x hx2)

/-- The captured ordering clause survives trimming: it starts with a
non-whitespace character, so its trim is non-empty. -/
theorem matchOrderAt_trim_ne (cap : List Char) (h : matchOrderAt cap = true) :
    trimChars cap ≠ [] := by
  rcases cap with _ | ⟨o, rest⟩
  · simp [matchOrderAt] at h
  · rcases rest with _ | ⟨r, rest⟩
    · simp [matchOrderAt] at h
    · rcases rest with _ | ⟨d, rest⟩
      · simp [matchOrderAt] at h
      · rcases rest with _ | ⟨e, rest⟩
        · simp [matchOrderAt] at h
        · rcases rest with _ | ⟨r2, rest⟩
          · simp [matchOrderAt] at h
          · have ho : ciEq o 'o' = true := by
              simp only [matchOrderAt, Bool.and_eq_true] at h
              exact h.1.1.1.1.1
            have hws : isWsChar o = false := ciEq_o_not_ws o ho
            intro hnil
            have := trimChars_eq_nil _ hnil o (List.mem_cons_self _ _)
            rw [hws] at this
            exact absurd this (by simp)

/-- C7: the incremental predicate is injected only when no full refresh is
requested and a prior cursor exists; and when the base expression carries an
ordering clause (leftmost `\s+(ORDER\s+BY\s+…)$` match), the built JQL is
exactly the parenthesized order-free base, then the injected updated-since
predicate, then the original ordering clause re-appended syntactically
last. -/
theorem c7_incremental_jql_order_by (baseJql formattedDate : List Char)
    (forceFull : Bool) (lastSync : Option String) :
    ((forceFull = true ∨ optStrTruthy lastSync = false) →
      patternJql baseJql forceFull lastSync formattedDate = baseJql) ∧
    (forceFull = false → optStrTruthy lastSync = true →
      ∀ before capture, findOrderBy baseJql = some (before, capture) →
        patternJql baseJql forceFull lastSync formattedDate
          = ('(' :: trimChars before) ++ (") AND updated >= ".toList) ++
            ('"' :: formattedDate) ++ ['"'] ++ (' ' :: trimChars capture) ∧
        ∃ ws, baseJql = before ++ ws ++ capture ∧ ws ≠ [] ∧
          ∀ c ∈ ws, isWsChar c = true) := by
  constructor
  · rintro (hf | hl)
    · simp [patternJql, hf]
    · simp [patternJql, hl]
  · intro hf hl before capture hm
    obtain ⟨ws, heq, hne, hws, hcap⟩ := findOrderBy_split baseJql before capture hm
    have htrim : trimChars capture ≠ [] := matchOrderAt_trim_ne capture hcap
    refine ⟨?_, ws, heq, hne, hws⟩
    rw [patternJql, hf, hl]
    simp only [Bool.not_false, Bool.true_and, if_pos]
    rw [buildIncrementalJql, hm]
    simp only [htrim, ne_eq, not_false_iff, if_pos]

/-- C7 witness: a concrete base query ending in an ordering clause, pulled
incrementally, keeps the clause syntactically last after the injected
predicate. -/
theorem c7_incremental_jql_order_by_witness :
    patternJql ("project = SRE ORDER BY updated DESC".toList) false
      (some "2026-01-19T09:00:00.000+0000") ("2026-01-19 09:00".toList)
      = ('(' :: trimChars ("project = SRE".toList)) ++ (") AND updated >= ".toList) ++
        ('"' :: "2026-01-19 09:00".toList) ++ ['"'] ++
        (' ' :: trimChars ("ORDER BY updated DESC".toList)) :=
  ((c7_incremental_jql_order_by ("project = SRE ORDER BY updated DESC".toList)
      ("2026-01-19 09:00".toList) false (some "2026-01-19T09:00:00.000+0000")).2
    rfl rfl ("project = SRE".toList) ("ORDER BY updated DESC".toList) (by decide)).1

/-! ## C8 — queuing `+x` then `-x` -/

/-- The queued pending label list of a record, when one is present. -/
def pendingLabels (t : StoredTicket) : Option (List String) :=
  match pendLookup (t.offline.pending.getD []) "labels" with
  | some (PendVal.strList v) => some v
  | _ => none

/-- Setting a pending key makes it readable back. -/
theorem pendLookup_pendSet (p : Pending) (f : String) (v : PendVal) :
    pendLookup (pendSet p f v) f = some v := by
  induction p with
  | nil => simp [pendSet, pendLookup]
  | cons kv rest ih =>
      obtain ⟨k, w⟩ := kv
      by_cases hk : k = f <;> simp [pendSet, pendLookup, hk, ih]

/-- After queuing a label list, the base list of the next label edit is
exactly that list. -/
theorem labelEditBase_queueEdit (t : StoredTicket) (v : List String) :
    labelEditBase (queueEdit t "labels" (PendVal.strList v)) = v := by
  simp [labelEditBase, queueEdit, updateOffline, mergeOffline, pendLookup_pendSet]

/-- After queuing a label list, it is the record's pending label list. -/
theorem pendingLabels_queueEdit (t : StoredTicket) (v : List String) :
    pendingLabels (queueEdit t "labels" (PendVal.strList v)) = some v := by
  simp [pendingLabels, queueEdit, updateOffline, mergeOffline, pendLookup_pendSet]

/-- A `+x` edit against a base list. -/
theorem labelEditValue_plus (base : List String) (x : String) :
    labelEditValue base ("+" ++ x) = if x ∈ base then base else base ++ [x] := by
  have hplus : ("+" ++ x).toList = '+' :: x.toList := by cases x; rfl
  have hmk : String.mk x.toList = x := rfl
  simp only [labelEditValue, hplus, hmk]

/-- A `-x` edit against a base list. -/
theorem labelEditValue_minus (base : List String) (x : String) :
    labelEditValue base ("-" ++ x) = removeFirst base x := by
  have hminus : ("-" ++ x).toList = '-' :: x.toList := by cases x; rfl
  have hmk : String.mk x.toList = x := rfl
  simp only [labelEditValue, hminus, hmk]

/-- Removing a freshly appended element recovers the original list. -/
theorem removeFirst_append_notMem (l : List String) (x : String) (hx : x ∉ l) :
    removeFirst (l ++ [x]) x = l := by
  induction l with
  | nil => simp [removeFirst]
  | cons a as ih =>
      have hax : ¬a = x := fun h => hx (h ▸ List.mem_cons_self a as)
      have has : x ∉ as := fun h => hx (List.mem_cons_of_mem a h)
      simp [removeFirst, hax, ih has]

/-- The record used in the C8 counterexample: `urgent` is already a remote
label and nothing is pending. -/
def c8Ticket : StoredTicket :=
  { key := "SRE-5", host := "https://example.com", labels := ["urgent"] }

/-- C8 counterexample: on a record whose label set already contains
`urgent`, queuing `+urgent` then `-urgent` does not restore the pre-edit
label set — the additive edit is a no-op (the label is already present) and
the subtractive edit then removes the pre-existing occurrence, leaving a
pending label list that drops `urgent`. -/
theorem c8_counterexample :
    labelEditBase c8Ticket = ["urgent"] ∧
    pendingLabels (handleLabelEdit (handleLabelEdit c8Ticket "+urgent") "-urgent")
      = some [] ∧
    some ([] : List String) ≠ some (labelEditBase c8Ticket) := by
  refine ⟨rfl, ?_, by decide⟩
  decide

/-- C8 amended: queuing `+x` then `-x` restores the pre-edit base list
(the already-pending label list if one exists, else the record's remote
labels) exactly — with no crash and no duplicate — provided `x` was not
already in that base list; if `x` was present, the sequence instead removes
the first pre-existing occurrence of `x`. -/
theorem c8_amended_plus_minus_roundtrip (ticket : StoredTicket) (x : String) :
    (x ∉ labelEditBase ticket →
      pendingLabels (handleLabelEdit (handleLabelEdit ticket ("+" ++ x)) ("-" ++ x))
        = some (labelEditBase ticket)) ∧
    (x ∈ labelEditBase ticket →
      pendingLabels (handleLabelEdit (handleLabelEdit ticket ("+" ++ x)) ("-" ++ x))
        = some (removeFirst (labelEditBase ticket) x)) := by
  constructor
  · intro hx
    rw [handleLabelEdit, handleLabelEdit, labelEditValue_plus, if_neg hx,
      labelEditBase_queueEdit, labelEditValue_minus,
      removeFirst_append_notMem _ _ hx, pendingLabels_queueEdit]
  · intro hx
    rw [handleLabelEdit, handleLabelEdit, labelEditValue_plus, if_pos hx,
      labelEditBase_queueEdit, labelEditValue_minus, pendingLabels_queueEdit]

/-- The record used in the C8 witness: two remote labels, nothing pending. -/
def c8Fresh : StoredTicket :=
  { key := "SRE-6", host := "https://example.com", labels := ["a", "b"] }

/-- C8 witness: on a record without the label `urgent`, queuing `+urgent`
then `-urgent` restores the pre-edit label list exactly. -/
theorem c8_amended_plus_minus_roundtrip_witness :
    pendingLabels (handleLabelEdit (handleLabelEdit c8Fresh ("+" ++ "urgent"))
        ("-" ++ "urgent"))
      = some (labelEditBase c8Fresh) :=
  (c8_amended_plus_minus_roundtrip c8Fresh "urgent").1 (by decide)

end Jira
